import Mathlib

/-!
Shallow embedding of the run-orchestration engine of the `stressy` tool
(`stressy.py` and `utils.py`) and proofs about it.

Conventions of the embedding:
* Wall-clock time and duration values are modelled as rationals (`ℚ`);
  the Python source uses floats, which we idealize as exact rational
  arithmetic.
* A child process is modelled by the absolute time (since round start) at
  which it would exit on its own, together with its exit code.  All
  processes are spawned at round start (time 0), matching the source,
  which launches every process before the first wait.
* Stateful loops (`run`'s wait loop, `stress_test`'s repetition loop) are
  modelled by explicit state passing; `KeyboardInterrupt` arrival and the
  outcome of each round are modelled as an externally supplied event
  stream.
* File contents (the results history file) are modelled as a list of
  lines.
-/

set_option autoImplicit false

namespace Stressy

/-- The `TestStatus` enum of `stressy.py` (also used as exit code). -/
inductive TestStatus where
  | PASSED
  | FAILED
  | CANCELLED
  | ERROR
deriving DecidableEq, Repr

/-- The fields of the parsed command line (`args`) that the repetition loop
reads: the optional run-count limit (`--runs`) and the
continue-after-failure flag (`--continue`, stored as `args.cont`). -/
structure Args where
  runs : Option Nat
  cont : Bool
deriving DecidableEq, Repr

/-- What happens during one iteration of the repetition loop body, as seen
from `stress_test`: either `run(args)` returns a round verdict `ok` and the
subsequent `handle_sleep` is or is not interrupted by `KeyboardInterrupt`
(`sleepInterrupted`), or a `KeyboardInterrupt` arrives while `run(args)`
itself is executing. -/
inductive RoundEvent where
  | complete (ok : Bool) (sleepInterrupted : Bool)
  | interrupted
deriving DecidableEq, Repr

/-- The mutable state of `stress_test`'s `while` loop: the local counter
`runs` (rounds started), the accumulating `TestResult` counters
`passed_runs` and `failed_runs`, the `TestResult.status` field (still
`None` unless a `KeyboardInterrupt` set it to `CANCELLED`), and whether a
`break` has been executed. -/
structure LoopState where
  runs : Nat
  passed_runs : Nat
  failed_runs : Nat
  status : Option TestStatus
  done : Bool
deriving DecidableEq, Repr

/-- The state at loop entry (`runs = 0`, fresh `TestResult`). -/
def initState : LoopState :=
  { runs := 0, passed_runs := 0, failed_runs := 0, status := none, done := false }

/-- One iteration of the body of `stress_test`'s `while` loop
(src/stressy.py lines 305-343), given the event this round produces:
increment `runs`; on round success increment `passed_runs` then sleep; on
round failure increment `failed_runs` and `break` when the continue flag is
unset, otherwise sleep; a `KeyboardInterrupt` during the round or the sleep
sets `status = CANCELLED` and breaks. -/
def stepRound (args : Args) (ev : RoundEvent) (s : LoopState) : LoopState :=
  let s := { s with runs := s.runs + 1 }
  match ev with
  | .interrupted =>
      { s with status := some .CANCELLED, done := true }
  | .complete ok sleepInterrupted =>
      if ok then
        let s := { s with passed_runs := s.passed_runs + 1 }
        if sleepInterrupted then { s with status := some .CANCELLED, done := true } else s
      else
        let s := { s with failed_runs := s.failed_runs + 1 }
        if !args.cont then { s with done := true }
        else if sleepInterrupted then { s with status := some .CANCELLED, done := true }
        else s

/-- Whether the `while` condition `args.runs is None or runs < args.runs`
fails, i.e. the configured run-count limit has been reached. -/
def limitReached (args : Args) (s : LoopState) : Bool :=
  match args.runs with
  | none => false
  | some n => !(s.runs < n)

/-- The loop state after at most `k` iterations of `stress_test`'s `while`
loop: iteration stops (the state is repeated) once a `break` has happened
or the run-count limit is reached.  `events i` is the `RoundEvent` of round
`i + 1`. -/
def loopState (args : Args) (events : Nat → RoundEvent) : Nat → LoopState
  | 0 => initState
  | k + 1 =>
      let s := loopState args events k
      if s.done || limitReached args s then s
      else stepRound args (events s.runs) s

/-- The final `TestResult` of `stress_test` (src/stressy.py lines 349-355):
keep `CANCELLED` if set, otherwise `PASSED` when `failed_runs == 0` and
`FAILED` otherwise.  The counters are returned unchanged. -/
def finalize (s : LoopState) : TestStatus × Nat × Nat :=
  (if s.status ≠ some .CANCELLED then
      (if s.failed_runs = 0 then .PASSED else .FAILED)
    else .CANCELLED,
   s.passed_runs, s.failed_runs)

/-- `stress_test`, run to quiescence: with a run-count limit `n`, `n`
iterations always suffice, so the result is `finalize` of `loopState` at
any fuel `k` large enough for the loop to have exited. -/
def stress_test (args : Args) (events : Nat → RoundEvent) (k : Nat) :
    TestStatus × Nat × Nat :=
  finalize (loopState args events k)

/-! ### The per-round process supervisor (`run`) -/

/-- A child process of one round, for the purposes of the supervisor: the
absolute time (since round start, when all processes are launched
together) at which it exits on its own if never killed, and its exit
code.  A process that would hang forever is modelled by a finish time
beyond any timeout budget. -/
structure Proc where
  finish : ℚ
  code : Int
deriving DecidableEq, Repr

/-- What `run` records about one child process: either `proc.wait`
returned an exit code, or `subprocess.TimeoutExpired` was raised and the
process was killed. -/
inductive ProcOutcome where
  | exited (code : Int)
  | killed
deriving DecidableEq, Repr

/-- The per-process success flag `proc_success` of `run`
(src/stressy.py lines 242, 248): exit code 0 and not killed for
timeout. -/
def proc_success : ProcOutcome → Bool
  | .exited code => code == 0
  | .killed => false

/-- The state threaded through `run`'s wait loop: the wall-clock time
since round start (the sum of all time spent waiting so far) and
`remaining_timeout` (`none` when no timeout is configured). -/
structure WaitState where
  clock : ℚ
  remaining_timeout : Option ℚ
deriving DecidableEq, Repr

/-- `proc.wait(remaining_timeout)` followed by the timeout handler
(src/stressy.py lines 239-250): if the process's own finish time falls
within the remaining budget (or there is no budget), the wait returns its
exit code after `max (finish - clock) 0` time (zero when it already
finished); otherwise `TimeoutExpired` is raised after the whole remaining
budget and the process is killed.  Returns the outcome and the elapsed
wait time. -/
def waitProc (st : WaitState) (p : Proc) : ProcOutcome × ℚ :=
  match st.remaining_timeout with
  | none => (.exited p.code, max (p.finish - st.clock) 0)
  | some r =>
      if p.finish - st.clock ≤ r then (.exited p.code, max (p.finish - st.clock) 0)
      else (.killed, r)

/-- The bookkeeping after each wait (src/stressy.py lines 266-270):
advance the clock by the elapsed time and set
`remaining_timeout = max (remaining_timeout - elapsed) 0` when a timeout
is configured. -/
def tickState (st : WaitState) (elapsed : ℚ) : WaitState :=
  { clock := st.clock + elapsed,
    remaining_timeout := st.remaining_timeout.map (fun r => max (r - elapsed) 0) }

/-- The wait loop of `run` (src/stressy.py lines 234-274), processing the
launched processes in launch order: returns the accumulated round
verdict `success` (the fold of `success = success and proc_success`) and
the list of per-process outcomes. -/
def runAux (st : WaitState) (success : Bool) : List Proc → Bool × List ProcOutcome
  | [] => (success, [])
  | p :: rest =>
      let (o, elapsed) := waitProc st p
      let res := runAux (tickState st elapsed) (success && proc_success o) rest
      (res.1, o :: res.2)

/-- `run` (src/stressy.py lines 194-288), reduced to its wait/timeout/
verdict logic: launch all processes at time 0 with the full timeout as
remaining budget, wait on each in launch order, and return the round
verdict together with the per-process outcomes. -/
def run (timeout : Option ℚ) (procs : List Proc) : Bool × List ProcOutcome :=
  runAux { clock := 0, remaining_timeout := timeout } true procs

/-- The wait-loop states in which `run` starts waiting on each successive
process: `waitStates st ps` lists, for each prefix of `ps`, the state
just before the corresponding wait. -/
def waitStates (st : WaitState) : List Proc → List WaitState
  | [] => []
  | p :: rest => st :: waitStates (tickState st (waitProc st p).2) rest

/-! ### The results history store (`clear_results`) -/

/-- The test `line.startswith(args.command)` of `clear_results`, modelled
on the character lists of the two strings. -/
def startswith (line command : String) : Bool :=
  command.data.isPrefixOf line.data

/-- `clear_results` (src/stressy.py lines 447-479), with the history file
modelled as its list of lines: scan all lines counting them, keep exactly
those that do not start with the command, rewrite the file with the kept
lines, and report `(removed, total)`.  Returns (new file contents, removed
count, total count). -/
def clear_results (command : String) (lines : List String) :
    List String × Nat × Nat :=
  let total_count := lines.length
  let remaining := lines.filter (fun line => !startswith line command)
  let remove_count := total_count - remaining.length
  (remaining, remove_count, total_count)

/-! ### Decimal rendering helpers (models of Python string formatting) -/

/-- The decimal digits of `n`, most significant first (the model of how
Python renders a nonnegative integer). -/
def natDigits (n : Nat) : List Char :=
  if n < 10 then [Nat.digitChar n]
  else natDigits (n / 10) ++ [Nat.digitChar (n % 10)]
decreasing_by exact Nat.div_lt_self (by omega) (by omega)

/-- Decimal string of a natural number. -/
def natStr (n : Nat) : String := ⟨natDigits n⟩

/-- Model of Python's `"%d"` formatting of an integer. -/
def intStr (i : Int) : String :=
  if i < 0 then "-" ++ natStr i.natAbs else natStr i.toNat

/-- `n` zero-padded to three digits (for `n < 1000`). -/
def pad3 (n : Nat) : String :=
  if n < 10 then "00" ++ natStr n
  else if n < 100 then "0" ++ natStr n
  else natStr n

/-- Model of Python's `"%0.3fs" % seconds` for a nonnegative duration:
round to the nearest thousandth and render with exactly three decimal
places and a trailing `s`.  (Python rounds the underlying binary float
half-to-even; since we idealize floats as exact rationals, we idealize
the rounding as round-half-up.  The claims proved below do not depend on
the tie-breaking.) -/
def fmt3 (seconds : ℚ) : String :=
  let n := (⌊seconds * 1000 + 1 / 2⌋).toNat
  natStr (n / 1000) ++ "." ++ pad3 (n % 1000) ++ "s"

/-- The `for unit, duration in units` loop of `format_duration` in
src/stressy.py (lines 540-543): successive `divmod` down the unit list,
collecting a part `"%d%s" % (num_units, unit)` exactly when
`num_units > 0`. -/
def format_duration_go (seconds : ℚ) : List (String × ℚ) → List String
  | [] => []
  | (unit, d) :: rest =>
      let num_units : ℤ := ⌊seconds / d⌋
      (if 0 < num_units then [intStr num_units ++ unit] else []) ++
        format_duration_go (seconds - num_units * d) rest

/-- The descending unit list of `format_duration` in src/stressy.py
(lines 530-538). -/
def format_duration_units : List (String × ℚ) :=
  [("a", 365 * 86400), ("mt", 30 * 86400), ("w", 7 * 86400),
   ("d", 86400), ("h", 3600), ("min", 60), ("s", 1)]

/-- `format_duration` of src/stressy.py (lines 527-545): sub-minute values
as `"%0.3fs"`; otherwise successive `divmod` down the descending unit
ladder, appending a part only when its count is nonzero (`num_units > 0`),
and joining the first two parts with spaces (`" ".join(parts[:2])`). -/
def format_duration (seconds : ℚ) : String :=
  if seconds < 60 then fmt3 seconds
  else " ".intercalate ((format_duration_go seconds format_duration_units).take 2)

end Stressy

namespace Utils

open Stressy (natStr intStr fmt3)

/-- The `UNITS_DURATION` alias table of src/utils.py (lines 123-131):
`(factor in seconds, aliases)`, the first alias being the canonical
rendering.  Note the empty string is an alias for seconds. -/
def UNITS_DURATION : List (ℚ × List String) :=
  [(1, ["s", "sec", "", "second", "seconds"]),
   (60, ["min", "minute", "minutes"]),
   (60 * 60, ["h", "hour", "hours"]),
   (60 * 60 * 24, ["d", "day", "days"]),
   (60 * 60 * 24 * 7, ["w", "week", "weeks"]),
   (60 * 60 * 24 * 30, ["mt", "month", "months"]),
   (60 * 60 * 24 * 365, ["a", "y", "year", "years"])]

/-- Python's `l[:k]` slice with a possibly negative bound, as used by
`format_units` (`parts[:num_parts]`). -/
def pySliceTo {α : Type} (l : List α) (k : Int) : List α :=
  l.take (if 0 ≤ k then k.toNat else ((l.length : Int) + k).toNat)

/-- The `for factor, aliases in units[::-1]` loop of `format_units` in
src/utils.py (lines 145-148): successive `divmod` down the (already
reversed) unit list, collecting a part `"%d%s" % (num_units, aliases[0])`
when `num_units > 0` **or the factor is 1** (so the seconds part is
always collected). -/
def format_units_go (value : ℚ) : List (ℚ × List String) → List String
  | [] => []
  | (factor, aliases) :: rest =>
      let num_units : ℤ := ⌊value / factor⌋
      (if 0 < num_units ∨ factor = 1 then [intStr num_units ++ aliases.headD ""] else []) ++
        format_units_go (value - num_units * factor) rest

/-- `format_units` of src/utils.py (lines 143-150): run the `divmod` loop
over `units[::-1]` (largest factor first), then join `parts[:num_parts]`
with spaces. -/
def format_units (value : ℚ) (units : List (ℚ × List String)) (num_parts : Int) : String :=
  " ".intercalate (pySliceTo (format_units_go value units.reverse) num_parts)

/-- `format_duration` of src/utils.py (lines 179-183). -/
def format_duration (seconds : ℚ) (num_parts : Int := 2) : String :=
  if seconds < 60 then fmt3 seconds
  else format_units seconds UNITS_DURATION num_parts

/-! ### The duration tokenizer (model of `re.findall(UNITS_PATTERN, s)`) -/

/-- The whitespace class matched by the regex `\s` (ASCII part). -/
def isSpaceChar (c : Char) : Bool :=
  c == ' ' || c == '\t' || c == '\n' || c == '\r' || c == '\x0b' || c == '\x0c'

/-- The maximal-munch match of the number group `\d+(?:\.\d+)?` at a
position whose head is a digit: returns the matched characters and the
rest of the input.  The fractional part is taken only when a `.` is
immediately followed by a digit. -/
def numToken (cs : List Char) : List Char × List Char :=
  let ds := cs.takeWhile Char.isDigit
  let r1 := cs.dropWhile Char.isDigit
  if r1.headD ' ' = '.' && (r1.tail.headD ' ').isDigit then
    (ds ++ '.' :: r1.tail.takeWhile Char.isDigit, r1.tail.dropWhile Char.isDigit)
  else (ds, r1)

theorem length_dropWhile_le (l : List Char) (p : Char → Bool) :
    (l.dropWhile p).length ≤ l.length := by
  induction l with
  | nil => simp
  | cons a l ih => rw [List.dropWhile_cons]; split <;> simp; omega

theorem numToken_rest_length (c : Char) (rest : List Char) (hc : c.isDigit = true) :
    (numToken (c :: rest)).2.length ≤ rest.length := by
  unfold numToken
  simp only [List.dropWhile_cons, hc, if_true]
  have h1 : (rest.dropWhile Char.isDigit).length ≤ rest.length :=
    length_dropWhile_le rest _
  split
  · have h2 := length_dropWhile_le (rest.dropWhile Char.isDigit).tail Char.isDigit
    have h3 : (rest.dropWhile Char.isDigit).tail.length ≤
        (rest.dropWhile Char.isDigit).length := by
      cases rest.dropWhile Char.isDigit <;> simp
    simp only []
    omega
  · simpa using h1

/-- Model of `re.findall(UNITS_PATTERN, s)` with
`UNITS_PATTERN = (\d+(?:\.\d+)?)\s*([a-z]*)` (src/utils.py line 139),
restricted to ASCII input: scan left to right; at each digit, match the
maximal number, then skip whitespace and take the maximal run of
lowercase letters as the unit (possibly empty); at a non-digit, advance
one character.  Returns the list of `(number, unit)` group pairs. -/
def findTokens (cs : List Char) : List (String × String) :=
  match cs with
  | [] => []
  | c :: rest =>
      if hc : c.isDigit then
        let nt := numToken (c :: rest)
        let r2 := nt.2.dropWhile isSpaceChar
        (⟨nt.1⟩, ⟨r2.takeWhile Char.isLower⟩) ::
          findTokens (r2.dropWhile Char.isLower)
      else findTokens rest
termination_by cs.length
decreasing_by
  · have h1 := numToken_rest_length c rest hc
    have h2 := length_dropWhile_le (numToken (c :: rest)).2 isSpaceChar
    have h3 := length_dropWhile_le
      ((numToken (c :: rest)).2.dropWhile isSpaceChar) Char.isLower
    simp only [List.length_cons]
    omega
  · simp only [List.length_cons]
    omega

/-- The natural number denoted by a list of decimal digit characters. -/
def digitsVal (ds : List Char) : Nat :=
  ds.foldl (fun a c => 10 * a + (c.toNat - '0'.toNat)) 0

/-- Model of Python's `float(number)` on a string matched by the number
group `\d+(?:\.\d+)?`, idealized as exact rational arithmetic. -/
def ratOfNumChars (cs : List Char) : ℚ :=
  let ip := cs.takeWhile (fun c => c ≠ '.')
  match cs.dropWhile (fun c => c ≠ '.') with
  | _ :: fs => (digitsVal ip : ℚ) + (digitsVal fs : ℚ) / (10 : ℚ) ^ fs.length
  | [] => (digitsVal ip : ℚ)

/-- Model of Python's `s.lower()` on ASCII input. -/
def lowerStr (s : String) : String := ⟨s.data.map Char.toLower⟩

/-- The accumulation loop of `parse_units` (src/utils.py lines 160-172):
for each `(number, unit)` token, look the unit alias up in the table
(first matching row wins) and add `float(number) * factor`; an
unrecognized alias raises `ValueError("invalid unit: ...")` at once. -/
def parseTokens (units : List (ℚ × List String)) :
    List (String × String) → ℚ → Except String ℚ
  | [], value => .ok value
  | (number, unit) :: rest, value =>
      match units.find? (fun u => u.2.contains unit) with
      | some u => parseTokens units rest (value + ratOfNumChars number.data * u.1)
      | none => .error ("invalid unit: " ++ unit)

/-- `parse_units` of src/utils.py (lines 154-175): `None` input maps to
`None`; otherwise tokenize the lowercased string with `UNITS_PATTERN`,
raise `ValueError("invalid expression: ...")` when nothing matches, and
otherwise sum `number * factor` over the tokens, raising on the first
unrecognized unit alias. -/
def parse_units (s : Option String) (units : List (ℚ × List String)) :
    Except String (Option ℚ) :=
  match s with
  | none => .ok none
  | some s =>
      let ms := findTokens (lowerStr s).data
      if ms = [] then .error ("invalid expression: " ++ s)
      else (parseTokens units ms 0).map some

/-- `parse_duration` of src/utils.py (lines 187-189). -/
def parse_duration (s : Option String) : Except String (Option ℚ) :=
  parse_units s UNITS_DURATION

end Utils

namespace Spec

open Stressy (intStr)

/-!
Definitions in this namespace follow the specification's words rather
than the source; the theorems below compare the source functions with
them.
-/

/-- The decomposition of a value along a unit ladder by successive
integer division, as the specification describes it: for each rung, the
integer count of that unit and the remainder carried to the next rung.
Returns `(count, factor, label)` for every rung. -/
def ladder_counts (value : ℚ) : List (ℚ × String) → List (ℤ × ℚ × String)
  | [] => []
  | (factor, label) :: rest =>
      let n : ℤ := ⌊value / factor⌋
      (n, factor, label) :: ladder_counts (value - n * factor) rest

/-- The fixed ordered unit ladder of the specification: years,
months(30d), weeks, days, hours, minutes, seconds, with the canonical
labels used by both source variants. -/
def DURATION_LADDER : List (ℚ × String) :=
  [(365 * 86400, "a"), (30 * 86400, "mt"), (7 * 86400, "w"),
   (86400, "d"), (3600, "h"), (60, "min"), (1, "s")]

/-- The specification's rendering of a duration of at least one minute:
decompose along the ladder, keep only the units with a non-zero count,
render each as `<count><label>`, and join the two largest with a single
space. -/
def spec_render (seconds : ℚ) : String :=
  " ".intercalate
    ((((ladder_counts seconds DURATION_LADDER).filter (fun p => 0 < p.1)).map
        (fun p => intStr p.1 ++ p.2.2)).take 2)

/-- Like `spec_render`, but also keeping the seconds rung when its count
is zero — the behaviour of the src/utils.py variant. -/
def utils_render (seconds : ℚ) : String :=
  " ".intercalate
    ((((ladder_counts seconds DURATION_LADDER).filter
          (fun p => 0 < p.1 ∨ p.2.1 = 1)).map
        (fun p => intStr p.1 ++ p.2.2)).take 2)

/-- The pattern `<digits>.<ddd>s` of the specification: one or more
digits, a dot, exactly three digits, a trailing `s`, nothing else. -/
def matchesDurPattern (s : String) : Bool :=
  let ds := s.data.takeWhile Char.isDigit
  decide (ds ≠ []) &&
    (match s.data.dropWhile Char.isDigit with
     | '.' :: d1 :: d2 :: d3 :: ['s'] => d1.isDigit && d2.isDigit && d3.isDigit
     | _ => false)

end Spec

namespace Stressy

/-! ### Helper lemmas about the round supervisor -/

/-- The accumulated verdict of the wait loop is `true` exactly when the
accumulator was `true` and every processed outcome is a success. -/
theorem runAux_fst_eq_true_iff (ps : List Proc) :
    ∀ (st : WaitState) (acc : Bool),
      (runAux st acc ps).1 = true ↔
        (acc = true ∧ ∀ o ∈ (runAux st acc ps).2, proc_success o = true) := by
  induction ps with
  | nil => intro st acc; simp [runAux]
  | cons p rest ih =>
      intro st acc
      simp only [runAux, List.mem_cons]
      rw [ih]
      simp only [Bool.and_eq_true]
      constructor
      · rintro ⟨⟨ha, hp⟩, hall⟩
        exact ⟨ha, fun o ho => ho.elim (fun h => h ▸ hp) (hall o)⟩
      · rintro ⟨ha, hall⟩
        exact ⟨⟨ha, hall _ (Or.inl rfl)⟩, fun o ho => hall o (Or.inr ho)⟩

/-- The elapsed time of every wait is nonnegative, provided the remaining
budget (when present) is nonnegative. -/
theorem waitProc_elapsed_nonneg (st : WaitState) (p : Proc)
    (h : ∀ r, st.remaining_timeout = some r → 0 ≤ r) :
    0 ≤ (waitProc st p).2 := by
  unfold waitProc
  cases hr : st.remaining_timeout with
  | none => simp [le_max_right]
  | some r =>
      simp only []
      split
      · simp [le_max_right]
      · exact h r hr

/-- Clamping to 0 before and after subtracting a nonnegative amount is
the same as clamping once at the end. -/
theorem max_sub_clamp (a e : ℚ) (he : 0 ≤ e) :
    max (max a 0 - e) 0 = max (a - e) 0 := by
  rcases le_total a 0 with h | h
  · rw [max_eq_right h, max_eq_right (by linarith : (0 : ℚ) - e ≤ 0),
      max_eq_right (by linarith : a - e ≤ 0)]
  · rw [max_eq_left h]

/-- The budget invariant of the wait loop: if the state before a wait
carries `remaining_timeout = max (t - clock) 0`, so does every later
state reached from it. -/
theorem waitStates_budget (t : ℚ) (ps : List Proc) :
    ∀ (st0 : WaitState),
      st0.remaining_timeout = some (max (t - st0.clock) 0) →
      ∀ s ∈ waitStates st0 ps,
        s.remaining_timeout = some (max (t - s.clock) 0) := by
  induction ps with
  | nil => intro st0 _ s hs; simp [waitStates] at hs
  | cons p rest ih =>
      intro st0 h0 s hs
      simp only [waitStates, List.mem_cons] at hs
      rcases hs with rfl | hs
      · exact h0
      · refine ih (tickState st0 (waitProc st0 p).2) ?_ s hs
        have he : 0 ≤ (waitProc st0 p).2 := by
          refine waitProc_elapsed_nonneg st0 p ?_
          intro r hr
          rw [h0] at hr
          cases hr
          exact le_max_right _ _
        simp only [tickState, h0, Option.map_some']
        rw [max_sub_clamp _ _ he]
        have harith : t - st0.clock - (waitProc st0 p).2 =
            t - (st0.clock + (waitProc st0 p).2) := by ring
        rw [harith]

/-! ### Claim theorems: the round supervisor -/

/-- **C1**: for every round, the supervisor's round verdict is `true`
exactly when every one of the child processes exits with code 0 without
being killed for timeout; in particular with three processes, one exiting
non-zero (code 1) makes the round fail even though the other two exit 0. -/
theorem round_success_iff_all_procs_succeed :
    (∀ (timeout : Option ℚ) (procs : List Proc),
        (run timeout procs).1 = true ↔
          ∀ o ∈ (run timeout procs).2, proc_success o = true) ∧
    run none [⟨0, 0⟩, ⟨0, 1⟩, ⟨0, 0⟩] =
      (false, [.exited 0, .exited 1, .exited 0]) := by
  constructor
  · intro timeout procs
    rw [run, runAux_fst_eq_true_iff]
    simp [run]
  · norm_num [run, runAux, waitProc, tickState, proc_success, max_def]

/-- **C2**: the per-round timeout budget is shared across the whole
round: every state in which the supervisor starts waiting on a process
carries `remaining_timeout = max (original - clock) 0`, i.e. the original
timeout minus the time already consumed on earlier processes, clamped to
0; a killed process makes the round fail; and concretely, with a 5s
timeout and two processes of which the first consumes 4s, the wait on the
second starts with a budget of exactly 1s and the second (running for
100s) is killed, failing the round. -/
theorem shared_round_timeout_budget :
    (∀ (t : ℚ), 0 ≤ t → ∀ (procs : List Proc),
        ∀ s ∈ waitStates ⟨0, some t⟩ procs,
          s.remaining_timeout = some (max (t - s.clock) 0)) ∧
    (∀ (timeout : Option ℚ) (procs : List Proc),
        .killed ∈ (run timeout procs).2 → (run timeout procs).1 = false) ∧
    waitStates ⟨0, some 5⟩ [⟨4, 0⟩, ⟨100, 0⟩] = [⟨0, some 5⟩, ⟨4, some 1⟩] ∧
    run (some 5) [⟨4, 0⟩, ⟨100, 0⟩] = (false, [.exited 0, .killed]) := by
  refine ⟨?_, ?_, ?_, ?_⟩
  · intro t ht procs s hs
    refine waitStates_budget t procs ⟨0, some t⟩ ?_ s hs
    simp [max_eq_left, ht]
  · intro timeout procs hk
    by_contra hne
    rw [Bool.not_eq_false] at hne
    rw [run, runAux_fst_eq_true_iff] at hne
    have := hne.2 .killed hk
    simp [proc_success] at this
  · norm_num [waitStates, waitProc, tickState, max_def]
  · norm_num [run, runAux, waitProc, tickState, proc_success, max_def]

/-- Closed witness for the hypotheses of `shared_round_timeout_budget`:
instantiated at timeout 5 and the two concrete processes, the state
before the second wait has a remaining budget of `max (5 - 4) 0 = 1`. -/
theorem shared_round_timeout_budget_witness :
    WaitState.remaining_timeout ⟨4, some 1⟩ = some (max ((5 : ℚ) - 4) 0) ∧
    (run (some 5) [⟨4, 0⟩, ⟨100, 0⟩]).1 = false :=
  ⟨shared_round_timeout_budget.1 5 (by norm_num) [⟨4, 0⟩, ⟨100, 0⟩]
      ⟨4, some 1⟩ (by rw [shared_round_timeout_budget.2.2.1]; simp),
   shared_round_timeout_budget.2.1 (some 5) [⟨4, 0⟩, ⟨100, 0⟩]
      (by rw [shared_round_timeout_budget.2.2.2]; simp)⟩

/-! ### Helper lemmas about the repetition loop -/

/-- Every executed loop body increments the round counter by one. -/
theorem stepRound_runs (args : Args) (ev : RoundEvent) (s : LoopState) :
    (stepRound args ev s).runs = s.runs + 1 := by
  cases ev with
  | interrupted => rfl
  | complete ok sInt =>
      cases ok <;> cases sInt <;> cases hc : args.cont <;> simp [stepRound, hc]

/-- Every executed loop body increments exactly one of the two counters,
except when the round itself was interrupted, in which case it increments
neither. -/
theorem stepRound_counters (args : Args) (ev : RoundEvent) (s : LoopState) :
    (stepRound args ev s).passed_runs + (stepRound args ev s).failed_runs =
      s.passed_runs + s.failed_runs +
        (match ev with | .interrupted => 0 | .complete _ _ => 1) := by
  cases ev with
  | interrupted => simp [stepRound]
  | complete ok sInt =>
      cases ok <;> cases sInt <;> cases hc : args.cont <;>
        simp [stepRound, hc] <;> omega

/-- Once the loop has executed `break`, later iterations leave the state
unchanged. -/
theorem loopState_done_stable (args : Args) (events : Nat → RoundEvent)
    (k k' : Nat) (hk : k ≤ k') (hdone : (loopState args events k).done = true) :
    loopState args events k' = loopState args events k := by
  obtain ⟨m, rfl⟩ := Nat.exists_eq_add_of_le hk
  clear hk
  induction m with
  | zero => rfl
  | succ m ih =>
      have heq : k + (m + 1) = (k + m) + 1 := by omega
      rw [heq]
      simp only [loopState]
      rw [ih]
      simp [hdone]

/-! ### Claim theorems: the repetition loop -/

/-- **C3**: when the continue flag is unset, a failed round increments
`failed_runs` and breaks at once — the resulting state does not depend on
the sleep (the equation holds for both values of `sleepInterrupted`) and
no further round is started (a `done` state is stable); when the loop
exits without cancellation the status is `PASSED` iff `failed_runs = 0`;
and concretely, a failure on run 3 of a configured limit of 10 stops the
loop after exactly 3 started rounds with final status `FAILED`. -/
theorem failure_without_continue_breaks :
    (∀ (args : Args) (s : LoopState) (sleepInterrupted : Bool),
        args.cont = false →
        stepRound args (.complete false sleepInterrupted) s =
          { s with runs := s.runs + 1, failed_runs := s.failed_runs + 1,
                   done := true }) ∧
    (∀ (args : Args) (events : Nat → RoundEvent) (k k' : Nat), k ≤ k' →
        (loopState args events k).done = true →
        loopState args events k' = loopState args events k) ∧
    (∀ s : LoopState, s.status ≠ some .CANCELLED →
        finalize s = (if s.failed_runs = 0 then TestStatus.PASSED else .FAILED,
          s.passed_runs, s.failed_runs)) ∧
    loopState ⟨some 10, false⟩
        (fun i => if i < 2 then .complete true false else .complete false false) 10 =
      ⟨3, 2, 1, none, true⟩ ∧
    stress_test ⟨some 10, false⟩
        (fun i => if i < 2 then .complete true false else .complete false false) 10 =
      (.FAILED, 2, 1) := by
  refine ⟨?_, loopState_done_stable, ?_, by decide, by decide⟩
  · intro args s sleepInterrupted hcont
    simp [stepRound, hcont]
  · intro s hs
    simp [finalize, hs]

/-- Closed witness for the hypotheses of `failure_without_continue_breaks`:
a failed round with the continue flag unset, from the initial state,
yields one failed run and a finished loop. -/
theorem failure_without_continue_breaks_witness :
    stepRound ⟨some 10, false⟩ (.complete false false) initState =
      { initState with runs := initState.runs + 1,
                       failed_runs := initState.failed_runs + 1, done := true } ∧
    finalize ⟨3, 2, 1, none, true⟩ = (TestStatus.FAILED, 2, 1) := by
  constructor
  · exact failure_without_continue_breaks.1 ⟨some 10, false⟩ initState false rfl
  · have h := failure_without_continue_breaks.2.2.1 ⟨3, 2, 1, none, true⟩ (by simp)
    simpa using h

/-- **C4**: after any number of loop iterations, `passed_runs +
failed_runs` is at most the number of rounds started, and equals it when
no started round was cut short by a `KeyboardInterrupt` (each completed
round increments exactly one of the two counters). -/
theorem counter_sum_invariant :
    ∀ (args : Args) (events : Nat → RoundEvent) (k : Nat),
      (loopState args events k).passed_runs + (loopState args events k).failed_runs ≤
        (loopState args events k).runs ∧
      ((∀ i < (loopState args events k).runs, events i ≠ .interrupted) →
        (loopState args events k).passed_runs + (loopState args events k).failed_runs =
          (loopState args events k).runs) := by
  intro args events k
  induction k with
  | zero => simp [loopState, initState]
  | succ k ih =>
      rw [loopState]
      split
      · exact ih
      · constructor
        · cases hev : events (loopState args events k).runs with
          | complete ok sInt =>
              have hruns := stepRound_runs args (.complete ok sInt)
                (loopState args events k)
              have hcnt := stepRound_counters args (.complete ok sInt)
                (loopState args events k)
              simp only [] at hcnt
              have hle := ih.1
              omega
          | interrupted =>
              have hruns := stepRound_runs args .interrupted (loopState args events k)
              have hcnt := stepRound_counters args .interrupted (loopState args events k)
              simp only [] at hcnt
              have hle := ih.1
              omega
        · intro hno
          cases hev : events (loopState args events k).runs with
          | complete ok sInt =>
              rw [hev] at hno
              have hruns := stepRound_runs args (.complete ok sInt)
                (loopState args events k)
              have hcnt := stepRound_counters args (.complete ok sInt)
                (loopState args events k)
              simp only [] at hcnt
              have heq := ih.2 (fun i hi => hno i (by rw [hruns]; omega))
              omega
          | interrupted =>
              rw [hev] at hno
              have hruns := stepRound_runs args .interrupted (loopState args events k)
              refine absurd hev (hno (loopState args events k).runs ?_)
              rw [hruns]
              omega

/-- Closed witness for the hypothesis of `counter_sum_invariant`: three
all-passing rounds give `passed_runs + failed_runs = runs = 3`. -/
theorem counter_sum_invariant_witness :
    (loopState ⟨some 3, true⟩ (fun _ => .complete true false) 3).passed_runs +
        (loopState ⟨some 3, true⟩ (fun _ => .complete true false) 3).failed_runs =
      (loopState ⟨some 3, true⟩ (fun _ => .complete true false) 3).runs :=
  (counter_sum_invariant ⟨some 3, true⟩ (fun _ => .complete true false) 3).2
    (by decide)

/-- **C5**: a `KeyboardInterrupt` during a round sets the status to
`CANCELLED` and breaks without touching the counters; one during the
inter-round sleep does the same after the just-finished round's counter
update; `finalize` keeps the `CANCELLED` status and both counters; and
concretely, 4 passed and 1 failed rounds followed by an interrupt yield
the final result `(CANCELLED, 4, 1)`. -/
theorem interrupt_cancels_preserving_counts :
    (∀ (args : Args) (s : LoopState),
        stepRound args .interrupted s =
          { s with runs := s.runs + 1, status := some .CANCELLED, done := true }) ∧
    (∀ (args : Args) (s : LoopState) (ok : Bool), (ok || args.cont) = true →
        stepRound args (.complete ok true) s =
          { s with runs := s.runs + 1,
                   passed_runs := s.passed_runs + (if ok then 1 else 0),
                   failed_runs := s.failed_runs + (if ok then 0 else 1),
                   status := some .CANCELLED, done := true }) ∧
    (∀ s : LoopState, s.status = some .CANCELLED →
        finalize s = (.CANCELLED, s.passed_runs, s.failed_runs)) ∧
    stress_test ⟨none, true⟩
        (fun i => if i < 4 then .complete true false
          else if i = 4 then .complete false false else .interrupted) 6 =
      (.CANCELLED, 4, 1) := by
  refine ⟨?_, ?_, ?_, by decide⟩
  · intro args s
    simp [stepRound]
  · intro args s ok hok
    cases ok
    · simp at hok
      simp [stepRound, hok]
    · simp [stepRound]
  · intro s hs
    simp [finalize, hs]

/-! ### Claim theorems: the results history store -/

/-- Filtering a list by a predicate and by its negation split its
length. -/
theorem length_filter_not_add (l : List String) (p : String → Bool) :
    (l.filter p).length + (l.filter (fun x => !p x)).length = l.length := by
  induction l with
  | nil => simp
  | cons a l ih => by_cases h : p a <;> simp [List.filter, h] <;> omega

/-- **C9**: `clear_results` keeps exactly the lines that do not start
with the given command, reports the total number of lines scanned, and
reports as removed the number of lines that do start with the command
(so removed + kept = total); concretely, with 5 lines starting with
`foo` and 2 others, exactly the 2 others remain and the report is 5 of
7 removed. -/
theorem clear_results_drops_exactly_matching :
    (∀ (command : String) (lines : List String),
        (∀ line, line ∈ (clear_results command lines).1 ↔
            line ∈ lines ∧ startswith line command = false) ∧
        (clear_results command lines).2.2 = lines.length ∧
        (clear_results command lines).2.1 =
          (lines.filter (fun l => startswith l command)).length ∧
        (clear_results command lines).2.1 +
            (clear_results command lines).1.length = lines.length) ∧
    clear_results "foo"
        ["foo 1", "foo 2", "foo 3", "foo 4", "foo 5", "bar 1", "baz 1"] =
      (["bar 1", "baz 1"], 5, 7) := by
  constructor
  · intro command lines
    have hsplit := length_filter_not_add lines (fun l => startswith l command)
    have hcount : (clear_results command lines).2.1 =
        (lines.filter (fun l => startswith l command)).length := by
      simp only [clear_results]
      omega
    refine ⟨?_, rfl, hcount, ?_⟩
    · intro line
      simp [clear_results]
    · simp only [clear_results]
      omega
  · decide

/-- Closed witness for the hypotheses of
`interrupt_cancels_preserving_counts`: an interrupted sleep after a
passed round, and `finalize` on a cancelled state with counts 4 and 1. -/
theorem interrupt_cancels_preserving_counts_witness :
    stepRound ⟨none, true⟩ (.complete true true) initState =
      { initState with runs := initState.runs + 1,
                       passed_runs := initState.passed_runs + (if true then 1 else 0),
                       failed_runs := initState.failed_runs + (if true then 0 else 1),
                       status := some .CANCELLED, done := true } ∧
    finalize ⟨6, 4, 1, some .CANCELLED, true⟩ = (.CANCELLED, 4, 1) := by
  constructor
  · exact interrupt_cancels_preserving_counts.2.1 ⟨none, true⟩ initState true rfl
  · have h := interrupt_cancels_preserving_counts.2.2.1 ⟨6, 4, 1, some .CANCELLED, true⟩ rfl
    simpa using h

end Stressy


section FormatterLemmas

open Stressy Utils Spec

/-! ### Helper lemmas about decimal rendering -/

theorem natDigits_all_digits (n : Nat) :
    ∀ c ∈ Stressy.natDigits n, c.isDigit = true := by
  induction n using Nat.strong_induction_on with
  | _ n ih =>
      rw [Stressy.natDigits]
      split
      · rename_i h
        intro c hc
        simp only [List.mem_singleton] at hc
        subst hc
        interval_cases n <;> decide
      · rename_i h
        intro c hc
        rw [List.mem_append] at hc
        rcases hc with hc | hc
        · exact ih (n / 10) (Nat.div_lt_self (by omega) (by omega)) c hc
        · simp only [List.mem_singleton] at hc
          subst hc
          have hm : n % 10 < 10 := Nat.mod_lt _ (by omega)
          generalize n % 10 = m at hm ⊢
          interval_cases m <;> decide

theorem natDigits_ne_nil (n : Nat) : Stressy.natDigits n ≠ [] := by
  rw [Stressy.natDigits]
  split <;> simp

theorem natDigits_of_lt10 (n : Nat) (h : n < 10) :
    Stressy.natDigits n = [Nat.digitChar n] := by
  rw [Stressy.natDigits, if_pos h]

theorem digitChar_isDigit (n : Nat) (h : n < 10) :
    (Nat.digitChar n).isDigit = true := by
  interval_cases n <;> decide

/-- For `r < 1000`, `pad3 r` is exactly three digit characters. -/
theorem pad3_data (r : Nat) (h : r < 1000) :
    ∃ d1 d2 d3 : Char, (Stressy.pad3 r).data = [d1, d2, d3] ∧
      d1.isDigit = true ∧ d2.isDigit = true ∧ d3.isDigit = true := by
  unfold Stressy.pad3
  by_cases h10 : r < 10
  · refine ⟨'0', '0', Nat.digitChar r, ?_, rfl, rfl, digitChar_isDigit r h10⟩
    rw [if_pos h10]
    simp [Stressy.natStr, natDigits_of_lt10 r h10, String.data_append]
  · by_cases h100 : r < 100
    · refine ⟨'0', Nat.digitChar (r / 10), Nat.digitChar (r % 10), ?_,
        rfl, digitChar_isDigit _ (by omega), digitChar_isDigit _ (Nat.mod_lt _ (by omega))⟩
      rw [if_neg h10, if_pos h100]
      have : Stressy.natDigits r =
          Stressy.natDigits (r / 10) ++ [Nat.digitChar (r % 10)] := by
        rw [Stressy.natDigits, if_neg h10]
      simp [Stressy.natStr, this, natDigits_of_lt10 (r / 10) (by omega),
        String.data_append]
    · refine ⟨Nat.digitChar (r / 100), Nat.digitChar (r / 10 % 10),
        Nat.digitChar (r % 10), ?_, digitChar_isDigit _ (by omega),
        digitChar_isDigit _ (Nat.mod_lt _ (by omega)),
        digitChar_isDigit _ (Nat.mod_lt _ (by omega))⟩
      rw [if_neg h10, if_neg h100]
      have h1 : Stressy.natDigits r =
          Stressy.natDigits (r / 10) ++ [Nat.digitChar (r % 10)] := by
        rw [Stressy.natDigits, if_neg h10]
      have h2 : Stressy.natDigits (r / 10) =
          Stressy.natDigits (r / 10 / 10) ++ [Nat.digitChar (r / 10 % 10)] := by
        rw [Stressy.natDigits, if_neg (by omega)]
      have h3 : r / 10 / 10 = r / 100 := by omega
      simp [Stressy.natStr, h1, h2, h3, natDigits_of_lt10 (r / 100) (by omega)]

/-- `takeWhile`/`dropWhile` stop exactly at the first character violating
the predicate. -/
theorem takeWhile_append_stop (p : Char → Bool) (l : List Char) (c : Char)
    (r : List Char) (hl : ∀ x ∈ l, p x = true) (hc : p c = false) :
    (l ++ c :: r).takeWhile p = l ∧ (l ++ c :: r).dropWhile p = c :: r := by
  induction l with
  | nil => simp [List.takeWhile_cons, List.dropWhile_cons, hc]
  | cons a l ih =>
      have ha := hl a (by simp)
      have ih2 := ih (fun x hx => hl x (by simp [hx]))
      simp [List.takeWhile_cons, List.dropWhile_cons, ha, ih2.1, ih2.2]

/-- The sub-minute rendering always matches `<digits>.<ddd>s`. -/
theorem fmt3_matches (x : ℚ) (hx : 0 ≤ x) :
    Spec.matchesDurPattern (Stressy.fmt3 x) = true := by
  unfold Stressy.fmt3
  set n : Nat := (⌊x * 1000 + 1 / 2⌋).toNat with hn
  obtain ⟨d1, d2, d3, hdata, h1, h2, h3⟩ := pad3_data (n % 1000) (Nat.mod_lt _ (by omega))
  have hdcat :
      (Stressy.natStr (n / 1000) ++ "." ++ Stressy.pad3 (n % 1000) ++ "s").data =
        Stressy.natDigits (n / 1000) ++ '.' :: (d1 :: d2 :: d3 :: ['s']) := by
    simp [String.data_append, Stressy.natStr, hdata]
  unfold Spec.matchesDurPattern
  have hstop := takeWhile_append_stop Char.isDigit (Stressy.natDigits (n / 1000))
    '.' (d1 :: d2 :: d3 :: ['s']) (natDigits_all_digits (n / 1000)) (by decide)
  simp only [hdcat, hstop.1, hstop.2]
  simp [natDigits_ne_nil, h1, h2, h3]

/-! ### Helper lemmas relating the formatters to the ladder decomposition -/

/-- Unfolding lemma for `ladder_counts` with pre-computed count and
remainder. -/
theorem ladder_counts_cons (v factor : ℚ) (label : String)
    (rest : List (ℚ × String)) (n : ℤ) (rem : ℚ)
    (hn : ⌊v / factor⌋ = n) (hrem : v - (n : ℚ) * factor = rem) :
    Spec.ladder_counts v ((factor, label) :: rest) =
      (n, factor, label) :: Spec.ladder_counts rem rest := by
  subst hn
  subst hrem
  rfl

/-- The stressy.py `divmod` loop produces exactly the renderings of the
positive-count rungs of the ladder decomposition. -/
theorem format_duration_go_eq (us : List (String × ℚ)) : ∀ v : ℚ,
    Stressy.format_duration_go v us =
      ((Spec.ladder_counts v (us.map (fun u => (u.2, u.1)))).filter
          (fun p => 0 < p.1)).map (fun p => Stressy.intStr p.1 ++ p.2.2) := by
  induction us with
  | nil => intro v; simp [Stressy.format_duration_go, Spec.ladder_counts]
  | cons u rest ih =>
      intro v
      obtain ⟨name, factor⟩ := u
      by_cases h : (0 : ℤ) < ⌊v / factor⌋ <;>
        simp [Stressy.format_duration_go, Spec.ladder_counts, List.filter_cons,
          h, ih]

/-- The utils.py `divmod` loop produces exactly the renderings of the
rungs with a positive count or factor 1. -/
theorem format_units_go_eq (us : List (ℚ × List String)) : ∀ v : ℚ,
    Utils.format_units_go v us =
      ((Spec.ladder_counts v (us.map (fun u => (u.1, u.2.headD "")))).filter
          (fun p => 0 < p.1 ∨ p.2.1 = 1)).map
        (fun p => Stressy.intStr p.1 ++ p.2.2) := by
  induction us with
  | nil => intro v; simp [Utils.format_units_go, Spec.ladder_counts]
  | cons u rest ih =>
      intro v
      obtain ⟨factor, aliases⟩ := u
      by_cases h : (0 : ℤ) < ⌊v / factor⌋ ∨ factor = 1 <;>
        simp [Utils.format_units_go, Spec.ladder_counts, List.filter_cons,
          h, ih]

/-- The two source unit tables, descending, both denote the
specification's ladder. -/
theorem format_duration_units_ladder :
    Stressy.format_duration_units.map (fun u => (u.2, u.1)) =
      Spec.DURATION_LADDER := rfl

theorem UNITS_DURATION_reversed_ladder :
    Utils.UNITS_DURATION.reverse.map (fun u => (u.1, u.2.headD "")) =
      Spec.DURATION_LADDER := by
  simp [Utils.UNITS_DURATION, Spec.DURATION_LADDER]
  norm_num

/-- For durations of at least a minute, the stressy.py variant renders
exactly the specification's words. -/
theorem stressy_format_ge60 (s : ℚ) (h : 60 ≤ s) :
    Stressy.format_duration s = Spec.spec_render s := by
  rw [Stressy.format_duration, if_neg (by linarith), Spec.spec_render,
    format_duration_go_eq, format_duration_units_ladder]

theorem pySliceTo_two (l : List String) : Utils.pySliceTo l 2 = l.take 2 := by
  simp [Utils.pySliceTo]

/-- For durations of at least a minute, the utils.py variant renders the
specification's words except that the seconds rung is always kept. -/
theorem utils_format_ge60 (s : ℚ) (h : 60 ≤ s) :
    Utils.format_duration s = Spec.utils_render s := by
  rw [Utils.format_duration]
  rw [if_neg (by linarith)]
  rw [Utils.format_units, pySliceTo_two, format_units_go_eq,
    UNITS_DURATION_reversed_ladder, Spec.utils_render]

end FormatterLemmas

section ConcreteFormats

open Stressy Utils Spec

/-- The ladder decomposition of 60 seconds. -/
theorem ladder_counts_60 :
    Spec.ladder_counts 60 Spec.DURATION_LADDER =
      [(0, 365 * 86400, "a"), (0, 30 * 86400, "mt"), (0, 7 * 86400, "w"),
       (0, 86400, "d"), (0, 3600, "h"), (1, 60, "min"), (0, 1, "s")] := by
  simp only [Spec.DURATION_LADDER]
  rw [ladder_counts_cons _ _ _ _ 0 60 (by norm_num) (by norm_num),
    ladder_counts_cons _ _ _ _ 0 60 (by norm_num) (by norm_num),
    ladder_counts_cons _ _ _ _ 0 60 (by norm_num) (by norm_num),
    ladder_counts_cons _ _ _ _ 0 60 (by norm_num) (by norm_num),
    ladder_counts_cons _ _ _ _ 0 60 (by norm_num) (by norm_num),
    ladder_counts_cons _ _ _ _ 1 0 (by norm_num) (by norm_num),
    ladder_counts_cons _ _ _ _ 0 0 (by norm_num) (by norm_num)]
  rfl

/-- The ladder decomposition of 8100 seconds. -/
theorem ladder_counts_8100 :
    Spec.ladder_counts 8100 Spec.DURATION_LADDER =
      [(0, 365 * 86400, "a"), (0, 30 * 86400, "mt"), (0, 7 * 86400, "w"),
       (0, 86400, "d"), (2, 3600, "h"), (15, 60, "min"), (0, 1, "s")] := by
  simp only [Spec.DURATION_LADDER]
  rw [ladder_counts_cons _ _ _ _ 0 8100 (by norm_num) (by norm_num),
    ladder_counts_cons _ _ _ _ 0 8100 (by norm_num) (by norm_num),
    ladder_counts_cons _ _ _ _ 0 8100 (by norm_num) (by norm_num),
    ladder_counts_cons _ _ _ _ 0 8100 (by norm_num) (by norm_num),
    ladder_counts_cons _ _ _ _ 2 900 (by norm_num) (by norm_num),
    ladder_counts_cons _ _ _ _ 15 0 (by norm_num) (by norm_num),
    ladder_counts_cons _ _ _ _ 0 0 (by norm_num) (by norm_num)]
  rfl


theorem spec_render_8100 : Spec.spec_render 8100 = "2h 15min" := by
  rw [Spec.spec_render, ladder_counts_8100]
  simp only [List.filter_cons, List.filter_nil]
  norm_num
  simp +decide [Stressy.intStr, Stressy.natStr, Stressy.natDigits]



theorem utils_render_8100 : Spec.utils_render 8100 = "2h 15min" := by
  rw [Spec.utils_render, ladder_counts_8100]
  simp only [List.filter_cons, List.filter_nil]
  norm_num
  simp +decide [Stressy.intStr, Stressy.natStr, Stressy.natDigits]

theorem spec_render_60 : Spec.spec_render 60 = "1min" := by
  rw [Spec.spec_render, ladder_counts_60]
  simp only [List.filter_cons, List.filter_nil]
  norm_num
  simp +decide [Stressy.intStr, Stressy.natStr, Stressy.natDigits]

theorem utils_render_60 : Spec.utils_render 60 = "1min 0s" := by
  rw [Spec.utils_render, ladder_counts_60]
  simp only [List.filter_cons, List.filter_nil]
  norm_num
  simp +decide [Stressy.intStr, Stressy.natStr, Stressy.natDigits]

end ConcreteFormats

section FormatClaims

open Stressy Utils Spec

/-- **C6 counterexample**: the utils.py variant of `format_duration` does
**not** emit only units with a non-zero count: at 60 seconds it renders
`"1min 0s"`, including the seconds unit with count 0, where the
specification's rendering (only non-zero counts) would be `"1min"`. -/
theorem format_duration_emits_zero_seconds_cex :
    Utils.format_duration 60 = "1min 0s" ∧ Spec.spec_render 60 = "1min" ∧
    ("1min 0s" : String) ≠ "1min" := by
  refine ⟨?_, spec_render_60, by decide⟩
  rw [utils_format_ge60 60 (by norm_num), utils_render_60]

/-- **C6 (amended)**: every nonnegative sub-minute duration is rendered
by both variants as `<digits>.<ddd>s`; for durations of at least a
minute, the stressy.py variant decomposes along the fixed unit ladder by
successive integer division and returns at most the two largest non-zero
units joined by single spaces, while the utils.py variant does the same
except that the seconds rung is always emitted, even with count 0. -/
theorem format_duration_ladder_rendering :
    (∀ s : ℚ, 0 ≤ s → s < 60 →
        Spec.matchesDurPattern (Stressy.format_duration s) = true ∧
        Spec.matchesDurPattern (Utils.format_duration s) = true) ∧
    (∀ s : ℚ, 60 ≤ s → Stressy.format_duration s = Spec.spec_render s) ∧
    (∀ s : ℚ, 60 ≤ s → Utils.format_duration s = Spec.utils_render s) := by
  refine ⟨?_, stressy_format_ge60, utils_format_ge60⟩
  intro s h0 h60
  constructor
  · rw [Stressy.format_duration, if_pos h60]
    exact fmt3_matches s h0
  · rw [Utils.format_duration, if_pos h60]
    exact fmt3_matches s h0

/-- Closed witness for the hypotheses of
`format_duration_ladder_rendering`: half a second renders as `0.500s`
(matching the pattern), and 8100 seconds renders as the specification's
ladder rendering in both variants. -/
theorem format_duration_ladder_rendering_witness :
    Spec.matchesDurPattern (Stressy.format_duration (1 / 2)) = true ∧
    Stressy.format_duration 8100 = Spec.spec_render 8100 ∧
    Utils.format_duration 8100 = Spec.utils_render 8100 :=
  ⟨(format_duration_ladder_rendering.1 (1 / 2) (by norm_num) (by norm_num)).1,
   format_duration_ladder_rendering.2.1 8100 (by norm_num),
   format_duration_ladder_rendering.2.2 8100 (by norm_num)⟩

/-- **C7**: the canonical round trip: `parse_duration "2h 15min"` yields
8100 seconds, and `format_duration 8100` (either variant) gives back
`"2h 15min"`. -/
theorem duration_round_trip_canonical :
    Utils.parse_duration (some "2h 15min") = .ok (some 8100) ∧
    Utils.format_duration 8100 = "2h 15min" ∧
    Stressy.format_duration 8100 = "2h 15min" := by
  refine ⟨?_, ?_, ?_⟩
  · simp +decide [Utils.parse_duration, Utils.parse_units, Utils.findTokens,
      Utils.numToken, Utils.isSpaceChar, Utils.parseTokens, Utils.UNITS_DURATION,
      Utils.lowerStr, Utils.ratOfNumChars, Utils.digitsVal, Except.map]
    norm_num
  · rw [utils_format_ge60 8100 (by norm_num), utils_render_8100]
  · rw [stressy_format_ge60 8100 (by norm_num), spec_render_8100]

end FormatClaims

section ParserLemmas

open Utils

/-! ### Helper lemmas about the tokenizer and parser -/

theorem takeWhile_all (p : Char → Bool) (l : List Char)
    (h : ∀ x ∈ l, p x = true) :
    l.takeWhile p = l ∧ l.dropWhile p = [] := by
  induction l with
  | nil => simp
  | cons a l ih =>
      have ha := h a (by simp)
      have ih2 := ih (fun x hx => h x (by simp [hx]))
      simp [List.takeWhile_cons, List.dropWhile_cons, ha, ih2.1, ih2.2]

theorem toLower_of_isDigit (c : Char) (h : c.isDigit = true) : c.toLower = c := by
  unfold Char.toLower
  have hn : ¬(65 ≤ c.toNat ∧ c.toNat ≤ 90) := by
    unfold Char.isDigit at h
    simp only [Bool.and_eq_true, decide_eq_true_eq, ge_iff_le] at h
    obtain ⟨h1, h2⟩ := h
    have h2n : c.val.toNat ≤ 57 := UInt32.toNat_le_of_le (by norm_num) h2
    unfold Char.toNat
    omega
  simp [hn]

/-- Lowercasing leaves a string of digits and dots unchanged. -/
theorem map_toLower_fixes (cs : List Char)
    (h : ∀ c ∈ cs, c.isDigit = true ∨ c = '.') :
    cs.map Char.toLower = cs := by
  induction cs with
  | nil => rfl
  | cons a l ih =>
      have ha : a.toLower = a := by
        rcases h a (by simp) with hd | hdot
        · exact toLower_of_isDigit a hd
        · subst hdot; decide
      simp [ha, ih (fun c hc => h c (by simp [hc]))]

/-- `numToken` on a full number string consumes all of it. -/
theorem numToken_number (ds fs : List Char) (hne : ds ≠ [])
    (hd : ∀ c ∈ ds, c.isDigit = true) (hf : ∀ c ∈ fs, c.isDigit = true) :
    numToken (ds ++ (if fs = [] then [] else '.' :: fs)) =
      (ds ++ (if fs = [] then [] else '.' :: fs), []) := by
  by_cases hfs : fs = []
  · subst hfs
    have hsimpl : (ds ++ (if ([] : List Char) = [] then [] else '.' :: [])) = ds := by
      simp
    rw [hsimpl]
    have hall := takeWhile_all Char.isDigit ds hd
    unfold numToken
    rw [hall.1, hall.2]
    simp
  · rw [if_neg hfs]
    have hstop := takeWhile_append_stop Char.isDigit ds '.' fs hd (by decide)
    obtain ⟨f0, fs', rfl⟩ : ∃ f0 fs', fs = f0 :: fs' := by
      cases fs with
      | nil => exact absurd rfl hfs
      | cons f0 fs' => exact ⟨f0, fs', rfl⟩
    have hallf := takeWhile_all Char.isDigit (f0 :: fs') hf
    unfold numToken
    rw [hstop.1, hstop.2]
    simp only [List.headD_cons, List.tail_cons]
    rw [if_pos (by simp [hf f0 (by simp)])]
    rw [hallf.1, hallf.2]

/-- The tokenizer maps a bare number string (digits, optionally a dot and
more digits) to the single token `(the whole string, "")`. -/
theorem findTokens_number (ds fs : List Char) (hne : ds ≠ [])
    (hd : ∀ c ∈ ds, c.isDigit = true) (hf : ∀ c ∈ fs, c.isDigit = true) :
    findTokens (ds ++ (if fs = [] then [] else '.' :: fs)) =
      [(⟨ds ++ (if fs = [] then [] else '.' :: fs)⟩, "")] := by
  obtain ⟨d0, ds', rfl⟩ : ∃ d0 ds', ds = d0 :: ds' := by
    cases ds with
    | nil => exact absurd rfl hne
    | cons d0 ds' => exact ⟨d0, ds', rfl⟩
  have hnum := numToken_number (d0 :: ds') fs (by simp) hd hf
  rw [List.cons_append, findTokens, dif_pos (hd d0 (by simp))]
  rw [← List.cons_append, hnum]
  simp [findTokens]

/-- If some token's unit alias is not in the table, the accumulation loop
of `parse_units` raises. -/
theorem parseTokens_error (units : List (ℚ × List String)) :
    ∀ (ts : List (String × String)) (v : ℚ),
      (∃ t ∈ ts, units.find? (fun u => u.2.contains t.2) = none) →
      ∃ e, parseTokens units ts v = .error e := by
  intro ts
  induction ts with
  | nil => intro v h; simp at h
  | cons t rest ih =>
      intro v h
      obtain ⟨number, unit⟩ := t
      cases hf : units.find? (fun u => u.2.contains unit) with
      | none => exact ⟨_, by rw [parseTokens, hf]⟩
      | some u =>
          obtain ⟨t0, ht0, hbad⟩ := h
          rcases List.mem_cons.mp ht0 with rfl | hmem
          · rw [hf] at hbad; cases hbad
          · have hrec := ih (v + ratOfNumChars number.data * u.1) ⟨t0, hmem, hbad⟩
            obtain ⟨e, he⟩ := hrec
            exact ⟨e, by rw [parseTokens, hf]; exact he⟩

end ParserLemmas

section ParserClaims

open Utils

/-- **C8**: `parse_duration` maps an absent input (`None`) to `None`;
raises `ValueError` for every string in which no `<number><unit>` token
matches; and raises `ValueError` whenever some matched token's unit alias
is not in the duration alias table. -/
theorem parse_duration_error_cases :
    Utils.parse_duration none = .ok none ∧
    (∀ s : String, findTokens (lowerStr s).data = [] →
        ∃ e, Utils.parse_duration (some s) = .error e) ∧
    (∀ s : String, ∀ t ∈ findTokens (lowerStr s).data,
        UNITS_DURATION.find? (fun u => u.2.contains t.2) = none →
        ∃ e, Utils.parse_duration (some s) = .error e) := by
  refine ⟨rfl, ?_, ?_⟩
  · intro s h
    exact ⟨"invalid expression: " ++ s,
      by simp only [Utils.parse_duration, parse_units, h, if_pos]⟩
  · intro s t ht hbad
    rw [Utils.parse_duration, parse_units]
    by_cases hms : findTokens (lowerStr s).data = []
    · exact ⟨"invalid expression: " ++ s, by simp only [hms, if_pos]⟩
    · obtain ⟨e, he⟩ := parseTokens_error UNITS_DURATION _ 0 ⟨t, ht, hbad⟩
      refine ⟨e, ?_⟩
      simp only [if_neg hms, he, Except.map]

/-- Closed witness for the hypotheses of `parse_duration_error_cases`:
`"abc"` produces no token at all and `"5x"` produces the token
`("5", "x")` whose alias `x` is unknown; both inputs are rejected. -/
theorem parse_duration_error_cases_witness :
    (∃ e, Utils.parse_duration (some "abc") = .error e) ∧
    (∃ e, Utils.parse_duration (some "5x") = .error e) := by
  constructor
  · exact parse_duration_error_cases.2.1 "abc"
      (by simp +decide [findTokens, lowerStr])
  · refine parse_duration_error_cases.2.2 "5x" ("5", "x") ?_ ?_
    · simp +decide [findTokens, numToken, lowerStr, isSpaceChar]
    · simp +decide [UNITS_DURATION, List.find?]

/-- **C10**: every string that is a bare number — one or more digits,
optionally a dot and one or more digits, no unit letters — parses
successfully, yielding the denoted number of seconds, because the empty
string is an alias of the seconds unit (factor 1). -/
theorem bare_number_parses_as_seconds :
    ∀ (ds fs : List Char), ds ≠ [] → (∀ c ∈ ds, c.isDigit = true) →
      (∀ c ∈ fs, c.isDigit = true) →
      Utils.parse_duration (some ⟨ds ++ (if fs = [] then [] else '.' :: fs)⟩) =
        .ok (some (ratOfNumChars (ds ++ (if fs = [] then [] else '.' :: fs)))) := by
  intro ds fs hne hd hf
  have hchars : ∀ c ∈ ds ++ (if fs = [] then [] else '.' :: fs),
      c.isDigit = true ∨ c = '.' := by
    intro c hc
    rw [List.mem_append] at hc
    rcases hc with hc | hc
    · exact Or.inl (hd c hc)
    · by_cases hfs : fs = []
      · simp [hfs] at hc
      · rw [if_neg hfs] at hc
        rcases List.mem_cons.mp hc with rfl | hc
        · exact Or.inr rfl
        · exact Or.inl (hf c hc)
  have hlow : (lowerStr ⟨ds ++ (if fs = [] then [] else '.' :: fs)⟩).data =
      ds ++ (if fs = [] then [] else '.' :: fs) := by
    simp only [lowerStr]
    exact map_toLower_fixes _ hchars
  rw [Utils.parse_duration, parse_units]
  simp only [hlow]
  rw [findTokens_number ds fs hne hd hf]
  rw [if_neg (by simp)]
  have hsec : UNITS_DURATION.find?
      (fun u => u.2.contains (("" : String))) =
        some (1, ["s", "sec", "", "second", "seconds"]) := by
    simp +decide [UNITS_DURATION, List.find?]
  simp only [parseTokens]
  rw [hsec]
  simp [Except.map]

/-- Closed witness for the hypotheses of `bare_number_parses_as_seconds`:
`"90"` parses to 90 seconds and `"2.5"` to 2.5 seconds. -/
theorem bare_number_parses_as_seconds_witness :
    Utils.parse_duration (some "90") = .ok (some 90) ∧
    Utils.parse_duration (some "2.5") = .ok (some (5 / 2)) := by
  constructor
  · have h := bare_number_parses_as_seconds ['9', '0'] [] (by decide)
      (by decide) (by decide)
    rw [show (['9', '0'] ++ (if ([] : List Char) = [] then []
        else '.' :: []) : List Char) = ['9', '0'] by simp] at h
    rw [show ("90" : String) = ⟨['9', '0']⟩ from rfl, h]
    simp +decide [ratOfNumChars, digitsVal, List.takeWhile, List.dropWhile]
  · have h := bare_number_parses_as_seconds ['2'] ['5'] (by decide)
      (by decide) (by decide)
    rw [show (['2'] ++ (if (['5'] : List Char) = [] then []
        else '.' :: ['5']) : List Char) = ['2', '.', '5'] by simp] at h
    rw [show ("2.5" : String) = ⟨['2', '.', '5']⟩ from rfl, h]
    simp +decide [ratOfNumChars, digitsVal, List.takeWhile, List.dropWhile]
    norm_num

end ParserClaims
